import Mathlib

/-!
Shallow embedding of `src/orderbook_tui.py` (Kalshi Orderbook TUI) and
verification of the specification's claims about it.

Conventions of the embedding:
* Python ints are modelled as `ℤ` (list indices pass through `Int.toNat`
  exactly where the code has already established non-negativity).
* Python lists of ints are `List ℤ`; `l[i]` on an in-range index is
  `l.getD i 0`.
* Python floats are modelled as real numbers `ℝ`; `int(x)` (truncation
  toward zero) is `float_int`; `math.log10` is `Real.logb 10`.
* The curses screen writes relevant to the claims are modelled as
  in-order overwrites on a row of `W` characters (`applyWrite`).
-/

namespace OrderbookTui

/-- `clamp` from the source: `lo if v < lo else hi if v > hi else v`. -/
def clamp (v lo hi : ℤ) : ℤ := if v < lo then lo else if v > hi then hi else v

/-! ## fetch_orderbook: bin building (lines 25-38) -/

/-- One iteration of the `yes` loop of `fetch_orderbook`:
`if 0 <= p <= 100: yes_bins[p] += q`. -/
def binStepYes (b : List ℤ) (pq : ℤ × ℤ) : List ℤ :=
  if 0 ≤ pq.1 ∧ pq.1 ≤ 100 then
    b.set pq.1.toNat (b.getD pq.1.toNat 0 + pq.2)
  else b

/-- One iteration of the `no` loop of `fetch_orderbook`:
`if 0 <= p <= 100: m = 100 - p; no_mapped_bins[m] += q`. -/
def binStepNo (b : List ℤ) (pq : ℤ × ℤ) : List ℤ :=
  if 0 ≤ pq.1 ∧ pq.1 ≤ 100 then
    b.set (100 - pq.1).toNat (b.getD (100 - pq.1).toNat 0 + pq.2)
  else b

/-- The pure bin-building core of `fetch_orderbook`: starting from
`[0] * 101` twice, accumulate the `yes` pairs and the (axis-mapped) `no`
pairs.  Prices and quantities arrive already coerced to ints (`int(p)`,
`int(q)` in the source). -/
def buildBins (yes no : List (ℤ × ℤ)) : List ℤ × List ℤ :=
  (yes.foldl binStepYes (List.replicate 101 0),
   no.foldl binStepNo (List.replicate 101 0))

/-! ## transform (line 50) and the bar-height computation (lines 240-248) -/

/-- `transform(q, log_mode)`: `log10(q + 1.0)` in log mode, else `float(q)`. -/
noncomputable def transform (q : ℤ) (log_mode : Bool) : ℝ :=
  if log_mode then Real.logb 10 ((q : ℝ) + 1) else (q : ℝ)

/-- Python `int()` on a float: truncation toward zero. -/
noncomputable def float_int (x : ℝ) : ℤ := if x < 0 then -⌊-x⌋ else ⌊x⌋

/-- The visible-range scaling maximum of `TUI.draw` (lines 240-244):
`maxT` starts at `1.0` and is folded with the transformed quantity of both
sides over every visible price `p ∈ [s, e]`. -/
noncomputable def maxT (yes no : List ℤ) (lm : Bool) (s e : ℕ) : ℝ :=
  (List.range' s (e + 1 - s)).foldl
    (fun acc p =>
      max (max acc (transform (yes.getD p 0) lm)) (transform (no.getD p 0) lm))
    1

/-- `height_for(q)` of `TUI.draw` (lines 246-248):
`0 if maxT <= 0 else int((t / maxT) * inner_h)`. -/
noncomputable def height_for (yes no : List ℤ) (lm : Bool) (s e : ℕ)
    (inner_h : ℕ) (q : ℤ) : ℤ :=
  if maxT yes no lm s e ≤ 0 then 0
  else float_int (transform q lm / maxT yes no lm s e * (inner_h : ℝ))

/-- Modelled from the spec words of C1: `maxVisibleTransform` is "exactly the
maximum of transform over both sides' bins restricted to the visible range"
`[s, e]` — with no `1.0` floor.  Used to compare the spec's formula with the
source's `maxT`. -/
noncomputable def specMaxVisible (yes no : List ℤ) (lm : Bool) (s e : ℕ) : ℝ :=
  (List.range' (s + 1) (e - s)).foldl
    (fun acc p =>
      max acc (max (transform (yes.getD p 0) lm) (transform (no.getD p 0) lm)))
    (max (transform (yes.getD s 0) lm) (transform (no.getD s 0) lm))

/-! ## Viewport geometry of `TUI.draw` (lines 183-198) -/

/-- `inner_w = max(1, inner_right - inner_left + 1)` with `inner_left = 2`,
`inner_right = W - 3`. -/
def inner_w (W : ℤ) : ℤ := max 1 ((W - 3) - 2 + 1)

/-- `prices_fit = max(1, min(101, inner_w // 2))`. -/
def prices_fit (W : ℤ) : ℤ := max 1 (min 101 (inner_w W / 2))

/-- `start = clamp(cursor_price - prices_fit // 2, 0, 101 - prices_fit)`. -/
def range_start (W c : ℤ) : ℤ :=
  clamp (c - prices_fit W / 2) 0 (101 - prices_fit W)

/-- `end = start + prices_fit - 1`. -/
def range_end (W c : ℤ) : ℤ := range_start W c + prices_fit W - 1

/-! ## Best prices (lines 166-171) and the header value `bya` (line 213) -/

/-- Downward scan of `best_yes_bid`:
`next((p for p in range(100, -1, -1) if self.yes_bins[p] > 0), None)`,
here as a recursion that checks `n` first and then descends. -/
def bestFrom (bins : List ℤ) : ℕ → Option ℕ
  | 0 => if 0 < bins.getD 0 0 then some 0 else none
  | n + 1 => if 0 < bins.getD (n + 1) 0 then some (n + 1) else bestFrom bins n

/-- `TUI.best_yes_bid`. -/
def best_yes_bid (yes : List ℤ) : Option ℕ := bestFrom yes 100

/-- `TUI.best_no_bid`:
`m = next((m for m in range(0, 101) if self.no_bins[m] > 0), None)` and then
`100 - m` (the NO side's native best price). -/
def best_no_bid (no : List ℤ) : Option ℕ :=
  ((List.range 101).find? (fun m => decide (0 < no.getD m 0))).map
    (fun m => 100 - m)

/-- The header's `bya = (100 - bnb) if bnb is not None else None` (line 213):
the displayed best ask on the YES axis. -/
def bya_of (no : List ℤ) : Option ℕ := (best_no_bid no).map (fun b => 100 - b)

/-! ## Interaction state and key handling (`TUI.__init__`, `TUI.keyloop`) -/

/-- The mutable session state touched by `keyloop`. -/
structure TUIState where
  cursor_price : ℤ
  order_size : ℤ
  side : String
  log_mode : Bool
  placed : List String

/-- Defaults set in `TUI.__init__` (lines 80-87). -/
def initState : TUIState where
  cursor_price := 50
  order_size := 1
  side := "YES"
  log_mode := false
  placed := []

/-- One key event as decoded by `keyloop`; the branches of the source are
mutually exclusive on the key code.  A confirm (Enter) event carries the
wall-clock timestamp string produced by `time.strftime`. -/
inductive Key where
  | left
  | right
  | up
  | down
  | toggle_scale
  | toggle_side
  | confirm (ts : String)
  | other

/-- The order-log entry string of line 131:
`f"{ts} — {side} size {self.order_size} @ {self.cursor_price}c"`. -/
def renderEntry (ts side : String) (size price : ℤ) : String :=
  ts ++ " — " ++ side ++ " size " ++ toString size ++ " @ " ++
    toString price ++ "c"

/-- `TUI.keyloop` (lines 123-132), restricted to the state mutations. -/
def keyStep (s : TUIState) (k : Key) : TUIState :=
  match k with
  | .left => { s with cursor_price := clamp (s.cursor_price - 1) 0 100 }
  | .right => { s with cursor_price := clamp (s.cursor_price + 1) 0 100 }
  | .up => { s with order_size := clamp (s.order_size + 1) 1 999999 }
  | .down => { s with order_size := clamp (s.order_size - 1) 1 999999 }
  | .toggle_scale => { s with log_mode := !s.log_mode }
  | .toggle_side => { s with side := if s.side = "YES" then "NO" else "YES" }
  | .confirm ts =>
      { s with placed :=
          (renderEntry ts s.side s.order_size s.cursor_price :: s.placed).take 50 }
  | .other => s

/-- Reference order log, following the spec's words for C8: one entry per
confirm event, rendered from the state that held at the moment of that
event, newest first. -/
def specLog (s : TUIState) : List Key → List String
  | [] => []
  | k :: ks =>
    match k with
    | .confirm ts =>
        specLog (keyStep s k) ks ++
          [renderEntry ts s.side s.order_size s.cursor_price]
    | _ => specLog (keyStep s k) ks

/-- Number of confirm events in a key sequence. -/
def countConfirms : List Key → ℕ
  | [] => 0
  | .confirm _ :: ks => countConfirms ks + 1
  | _ :: ks => countConfirms ks

/-! ## Fetch-outcome handling of `TUI.run` (lines 347-355) -/

/-- The state touched by the fetch arm of `TUI.run`. -/
structure FetchState where
  yes_bins : List ℤ
  no_bins : List ℤ
  err : Option String

/-- Outcome of one fetch attempt: either fresh bins, or an exception whose
`str(e)` is `msg`. -/
inductive FetchOutcome where
  | ok (yes no : List ℤ)
  | fail (msg : String)

/-- The `try/except` of `TUI.run`: on success both bin lists are replaced and
`err` is cleared; on failure the bins are untouched and `err := str(e)`. -/
def applyFetch (s : FetchState) : FetchOutcome → FetchState
  | .ok y n => ⟨y, n, none⟩
  | .fail msg => { s with err := some msg }

/-! ## Row-2 writes of `TUI.draw` (lines 222-226 and 316-327) -/

/-- `addnstr(row, 0, s, n)`: overwrite the row from column 0 with at most `n`
characters of `s`. -/
def applyWrite (row : List Char) (s : String) (n : ℕ) : List Char :=
  s.toList.take n ++ row.drop (s.toList.take n).length

/-- The error line text of line 224: `f"Error: {self.err}"`. -/
def errorText (msg : String) : String := "Error: " ++ msg

/-- The tooltip text of lines 316-323. -/
def tooltipText (yes no : List ℤ) (cp : ℤ) : String :=
  let cur_yes := yes.getD cp.toNat 0
  let cur_no := no.getD cp.toNat 0
  let byb := best_yes_bid yes
  let bya := bya_of no
  let tagBid : List String :=
    match byb with
    | some b => if cp = (b : ℤ) then ["BestBid"] else []
    | none => []
  let tagAsk : List String :=
    match bya with
    | some a => if cp = (a : ℤ) then ["BestAsk"] else []
    | none => []
  let tags := tagBid ++ tagAsk
  let sep : String := ", "
  let tagstr := if tags ≠ [] then " [" ++ String.intercalate sep tags ++ "]"
    else ""
  "cursor " ++ toString cp ++ "c — YES bid qty " ++ toString cur_yes ++
    " | NO→YES ask qty " ++ toString cur_no ++ tagstr

/-- Final content of terminal row 2 after one `TUI.draw` frame (for frames
whose height keeps the footer off row 2, i.e. `H ≥ 9`): `erase()` blanks the
row, then the error line is written iff `err` is set (lines 222-226), then
the tooltip is written unconditionally (lines 324-327), both via
`addnstr(2, 0, ·, W - 1)`. -/
def row2Final (err : Option String) (info : String) (W : ℕ) : List Char :=
  let blank := List.replicate W ' '
  let r1 := match err with
    | some m => applyWrite blank (errorText m) (W - 1)
    | none => blank
  applyWrite r1 info (W - 1)

/-! # Theorems -/

/-! ## C2: error line vs tooltip on row 2 -/

/-- All-zero bins, as set in `TUI.__init__` before the first fetch. -/
def zeroBins : List ℤ := List.replicate 101 0

/-- A sample error message. -/
def boomMsg : String := "boom"

lemma applyWrite_prefix (row : List Char) (s : String) (n : ℕ) :
    (applyWrite row s n).take (s.toList.take n).length = s.toList.take n :=
  List.take_left _ _

lemma applyWrite_length (row : List Char) (s : String) (n : ℕ)
    (h : n ≤ row.length) : (applyWrite row s n).length = row.length := by
  unfold applyWrite
  rw [List.length_append, List.length_drop, List.length_take]
  omega

/-- C2 counterexample: with `lastError = "boom"` set, zero bins, cursor 50
and width 60, the final frame's row 2 begins with the tooltip text
(`"cursor"...`), not with the error line — the unconditional tooltip write
of lines 324-327 overwrites the error line written at lines 222-226. -/
theorem C2_counterexample :
    (row2Final (some boomMsg) (tooltipText zeroBins zeroBins 50) 60).take 6 =
      ("cursor").toList ∧
    row2Final (some boomMsg) (tooltipText zeroBins zeroBins 50) 60 ≠
      applyWrite (List.replicate 60 ' ') (errorText boomMsg) 59 := by
  decide

/-- C2 amended: on every rendered frame the error line is written to row 2
when `lastError` is set, but the tooltip is then written to row 2
unconditionally: the final row 2 always begins with the tooltip (truncated
to width − 1) whether or not an error is present, the error line surviving
only beyond the tooltip's length; with no error, row 2 is exactly the
tooltip over a blank row.  Row 2's width is preserved. -/
theorem C2_row2_amended (err : Option String) (info : String) (W : ℕ) :
    (row2Final err info W).take (info.toList.take (W - 1)).length =
      info.toList.take (W - 1) ∧
    row2Final none info W =
      applyWrite (List.replicate W ' ') info (W - 1) ∧
    (row2Final err info W).length = W := by
  refine ⟨?_, rfl, ?_⟩
  · cases err with
    | none => exact applyWrite_prefix _ _ _
    | some m => exact applyWrite_prefix _ _ _
  · cases err with
    | none =>
      rw [show row2Final none info W =
        applyWrite (List.replicate W ' ') info (W - 1) from rfl]
      rw [applyWrite_length _ _ _ (by rw [List.length_replicate]; omega)]
      exact List.length_replicate W _
    | some m =>
      rw [show row2Final (some m) info W =
        applyWrite (applyWrite (List.replicate W ' ') (errorText m) (W - 1))
          info (W - 1) from rfl]
      rw [applyWrite_length _ _ _ (by
        rw [applyWrite_length _ _ _ (by rw [List.length_replicate]; omega),
          List.length_replicate]
        omega)]
      rw [applyWrite_length _ _ _ (by rw [List.length_replicate]; omega)]
      exact List.length_replicate W _


/-! ## C1: bar heights and visible-range scaling -/

lemma transform_nonneg (q : ℤ) (lm : Bool) (hq : 0 ≤ q) : 0 ≤ transform q lm := by
  cases lm
  · rw [show transform q false = (q : ℝ) from rfl]
    exact_mod_cast hq
  · rw [show transform q true = Real.logb 10 ((q : ℝ) + 1) from rfl]
    apply Real.logb_nonneg (by norm_num)
    have hq0 : (0 : ℝ) ≤ (q : ℝ) := by exact_mod_cast hq
    linarith

lemma foldl_max_shift (g : ℕ → ℝ) (l : List ℕ) :
    ∀ c b : ℝ, l.foldl (fun a p => max a (g p)) (max c b) =
      max c (l.foldl (fun a p => max a (g p)) b) := by
  induction l with
  | nil => intro c b; rfl
  | cons x xs ihl =>
    intro c b
    rw [List.foldl_cons, List.foldl_cons]
    show xs.foldl (fun a p => max a (g p)) (max (max c b) (g x)) =
      max c (xs.foldl (fun a p => max a (g p)) (max b (g x)))
    rw [max_assoc]
    exact ihl c (max b (g x))

lemma maxT_eq_max_one (yes no : List ℤ) (lm : Bool) (s e : ℕ) (hse : s ≤ e) :
    maxT yes no lm s e = max 1 (specMaxVisible yes no lm s e) := by
  unfold maxT specMaxVisible
  have hfn : (fun (acc : ℝ) (p : ℕ) =>
      max (max acc (transform (yes.getD p 0) lm)) (transform (no.getD p 0) lm)) =
      (fun acc p => max acc
        (max (transform (yes.getD p 0) lm) (transform (no.getD p 0) lm))) := by
    funext a p
    rw [max_assoc]
  rw [hfn, show e + 1 - s = (e - s) + 1 from by omega, List.range'_succ,
    List.foldl_cons]
  show (List.range' (s + 1) (e - s)).foldl
      (fun acc p => max acc
        (max (transform (yes.getD p 0) lm) (transform (no.getD p 0) lm)))
      (max 1 (max (transform (yes.getD s 0) lm) (transform (no.getD s 0) lm))) = _
  exact foldl_max_shift
    (fun p => max (transform (yes.getD p 0) lm) (transform (no.getD p 0) lm))
    (List.range' (s + 1) (e - s)) 1
    (max (transform (yes.getD s 0) lm) (transform (no.getD s 0) lm))

/-- C1 amended: the rendered bar height is the float value
`transform(q) / maxT * innerHeight` truncated by Python's `int()` — which
here is the floor, not rounding to nearest — and `maxT` is not the exact
visible maximum but `max(1, maxVisibleTransform)`, because the fold starts
at `1.0`. -/
theorem C1_bar_height_amended (yes no : List ℤ) (lm : Bool)
    (s e inner_h : ℕ) (q : ℤ) (hse : s ≤ e) (hq : 0 ≤ q) :
    maxT yes no lm s e = max 1 (specMaxVisible yes no lm s e) ∧
    height_for yes no lm s e inner_h q =
      ⌊transform q lm / maxT yes no lm s e * (inner_h : ℝ)⌋ := by
  have hm := maxT_eq_max_one yes no lm s e hse
  have h1 : (1 : ℝ) ≤ maxT yes no lm s e := by
    rw [hm]
    exact le_max_left _ _
  refine ⟨hm, ?_⟩
  unfold height_for
  rw [if_neg (by linarith)]
  have ht : 0 ≤ transform q lm := transform_nonneg q lm hq
  have hx : 0 ≤ transform q lm / maxT yes no lm s e * (inner_h : ℝ) := by
    apply mul_nonneg
    · exact div_nonneg ht (by linarith)
    · exact Nat.cast_nonneg inner_h
  unfold float_int
  rw [if_neg (not_lt.mpr hx)]

/-- Bins with YES quantity 2 at price 50 and 3 at price 51, zero elsewhere. -/
def exYes : List ℤ := ((List.replicate 101 0).set 50 2).set 51 3

/-- C1 counterexample: with YES quantities 2 and 3 visible (viewport
[50, 51]), inner height 10 and linear scale, the bar drawn for price 50 has
height `int(2/3 * 10) = 6`, while the claim's formula
`round(transform(q) / maxVisibleTransform * innerHeight) = round(20/3) = 7`. -/
theorem C1_counterexample :
    height_for exYes zeroBins false 50 51 10 (exYes.getD 50 0) = 6 ∧
    round (transform (exYes.getD 50 0) false /
      specMaxVisible exYes zeroBins false 50 51 * ((10 : ℕ) : ℝ)) = 7 := by
  have h50 : exYes.getD 50 0 = 2 := by decide
  have h51 : exYes.getD 51 0 = 3 := by decide
  have hz50 : zeroBins.getD 50 0 = 0 := by decide
  have hz51 : zeroBins.getD 51 0 = 0 := by decide
  have ht2 : transform (exYes.getD 50 0) false = (2 : ℝ) := by
    rw [h50, show transform 2 false = ((2 : ℤ) : ℝ) from rfl]
    norm_num
  have ht3 : transform (exYes.getD 51 0) false = (3 : ℝ) := by
    rw [h51, show transform 3 false = ((3 : ℤ) : ℝ) from rfl]
    norm_num
  have htz50 : transform (zeroBins.getD 50 0) false = (0 : ℝ) := by
    rw [hz50, show transform 0 false = ((0 : ℤ) : ℝ) from rfl]
    norm_num
  have htz51 : transform (zeroBins.getD 51 0) false = (0 : ℝ) := by
    rw [hz51, show transform 0 false = ((0 : ℤ) : ℝ) from rfl]
    norm_num
  have hspec : specMaxVisible exYes zeroBins false 50 51 = 3 := by
    unfold specMaxVisible
    rw [show (51 - 50 : ℕ) = 1 from rfl,
      show List.range' (50 + 1) 1 = [51] from rfl, List.foldl_cons,
      List.foldl_nil]
    show max (max (transform (exYes.getD 50 0) false)
        (transform (zeroBins.getD 50 0) false))
      (max (transform (exYes.getD 51 0) false)
        (transform (zeroBins.getD 51 0) false)) = 3
    rw [ht2, ht3, htz50, htz51, max_eq_left (by norm_num : (0 : ℝ) ≤ 2),
      max_eq_left (by norm_num : (0 : ℝ) ≤ 3),
      max_eq_right (by norm_num : (2 : ℝ) ≤ 3)]
  have hmax : maxT exYes zeroBins false 50 51 = 3 := by
    rw [maxT_eq_max_one _ _ _ _ _ (by norm_num), hspec,
      max_eq_right (by norm_num : (1 : ℝ) ≤ 3)]
  constructor
  · unfold height_for
    rw [hmax, if_neg (by norm_num : ¬(3 : ℝ) ≤ 0)]
    unfold float_int
    rw [ht2, show (2 : ℝ) / 3 * ((10 : ℕ) : ℝ) = 20 / 3 from by
      push_cast
      ring]
    rw [if_neg (by norm_num : ¬(20 : ℝ) / 3 < 0)]
    rw [Int.floor_eq_iff]
    norm_num
  · rw [ht2, hspec, show (2 : ℝ) / 3 * ((10 : ℕ) : ℝ) = 20 / 3 from by
      push_cast
      ring]
    rw [round_eq, show (20 : ℝ) / 3 + 1 / 2 = 43 / 6 from by ring]
    rw [Int.floor_eq_iff]
    norm_num

/-- Witness for C1 (amended) on the counterexample bins, viewport [50, 51],
inner height 10 and quantity 2. -/
theorem C1_bar_height_witness :
    (50 ≤ 51) ∧ (0 ≤ (2 : ℤ)) ∧
    (maxT exYes zeroBins false 50 51 =
      max 1 (specMaxVisible exYes zeroBins false 50 51) ∧
     height_for exYes zeroBins false 50 51 10 2 =
      ⌊transform 2 false / maxT exYes zeroBins false 50 51 * ((10 : ℕ) : ℝ)⌋) :=
  ⟨by norm_num, by norm_num,
    C1_bar_height_amended exYes zeroBins false 50 51 10 2 (by norm_num)
      (by norm_num)⟩

/-! ## C4 / C10: viewport geometry -/

/-- C4: for every terminal width ≥ 6 and every cursor price in [0,100], the
viewport satisfies `0 ≤ rangeStart ≤ rangeEnd ≤ 100` and
`rangeEnd - rangeStart + 1 = visibleCount`, where
`visibleCount = clamp(innerWidth / 2, 1, 101)`. -/
theorem C4_viewport_invariant (W c : ℤ) (_hW : 6 ≤ W) (_hc0 : 0 ≤ c)
    (_hc1 : c ≤ 100) :
    0 ≤ range_start W c ∧ range_start W c ≤ range_end W c ∧
    range_end W c ≤ 100 ∧
    range_end W c - range_start W c + 1 = prices_fit W ∧
    prices_fit W = clamp (inner_w W / 2) 1 101 := by
  unfold range_end range_start prices_fit inner_w clamp
  split_ifs <;> omega

/-- Witness for C4 at terminal width 80 and cursor 50. -/
theorem C4_viewport_invariant_witness :
    (6 ≤ (80 : ℤ)) ∧ (0 ≤ (50 : ℤ)) ∧ ((50 : ℤ) ≤ 100) ∧
    (0 ≤ range_start 80 50 ∧ range_start 80 50 ≤ range_end 80 50 ∧
     range_end 80 50 ≤ 100 ∧
     range_end 80 50 - range_start 80 50 + 1 = prices_fit 80 ∧
     prices_fit 80 = clamp (inner_w 80 / 2) 1 101) :=
  ⟨by decide, by decide, by decide,
    C4_viewport_invariant 80 50 (by decide) (by decide) (by decide)⟩

/-- C10: for every terminal width ≥ 1 and every cursor price in [0,100], the
viewport always contains the cursor, so the cursor-overlay guard
`start <= cursor_price <= end` of `TUI.draw` holds on every frame. -/
theorem C10_cursor_in_viewport (W c : ℤ) (_hW : 1 ≤ W) (hc0 : 0 ≤ c)
    (hc1 : c ≤ 100) :
    range_start W c ≤ c ∧ c ≤ range_end W c := by
  unfold range_end range_start prices_fit inner_w clamp
  split_ifs <;> omega

/-- Witness for C10 at the degenerate terminal width 1 and cursor 0. -/
theorem C10_cursor_in_viewport_witness :
    (1 ≤ (1 : ℤ)) ∧ (0 ≤ (0 : ℤ)) ∧ ((0 : ℤ) ≤ 100) ∧
    (range_start 1 0 ≤ 0 ∧ (0 : ℤ) ≤ range_end 1 0) :=
  ⟨by decide, by decide, by decide,
    C10_cursor_in_viewport 1 0 (by decide) (by decide) (by decide)⟩

/-! ## C9: key-event state machine invariants -/

/-- The bounds invariant on the interaction state. -/
def StInv (s : TUIState) : Prop :=
  0 ≤ s.cursor_price ∧ s.cursor_price ≤ 100 ∧
  1 ≤ s.order_size ∧ s.order_size ≤ 999999

lemma stInv_init : StInv initState := by
  refine ⟨?_, ?_, ?_, ?_⟩ <;> norm_num [initState]

lemma stInv_step (s : TUIState) (k : Key) (h : StInv s) : StInv (keyStep s k) := by
  obtain ⟨h1, h2, h3, h4⟩ := h
  cases k <;> simp only [keyStep, clamp, StInv] <;> (try split_ifs) <;>
    exact ⟨by omega, by omega, by omega, by omega⟩

lemma stInv_fold (ks : List Key) : ∀ s, StInv s → StInv (ks.foldl keyStep s) := by
  induction ks with
  | nil => exact fun s h => h
  | cons k ks ih => exact fun s h => ih _ (stInv_step s k h)

/-- C9: starting from the defaults (cursor 50, size 1), after any sequence of
key events the cursor price stays in [0,100] and the order size stays in
[1,999999]; a further left/right event moves the cursor by at most 1 and a
further up/down event moves the size by at most 1. -/
theorem C9_bounds_and_steps (ks : List Key) :
    (0 ≤ (ks.foldl keyStep initState).cursor_price ∧
     (ks.foldl keyStep initState).cursor_price ≤ 100 ∧
     1 ≤ (ks.foldl keyStep initState).order_size ∧
     (ks.foldl keyStep initState).order_size ≤ 999999) ∧
    |(keyStep (ks.foldl keyStep initState) Key.left).cursor_price -
      (ks.foldl keyStep initState).cursor_price| ≤ 1 ∧
    |(keyStep (ks.foldl keyStep initState) Key.right).cursor_price -
      (ks.foldl keyStep initState).cursor_price| ≤ 1 ∧
    |(keyStep (ks.foldl keyStep initState) Key.up).order_size -
      (ks.foldl keyStep initState).order_size| ≤ 1 ∧
    |(keyStep (ks.foldl keyStep initState) Key.down).order_size -
      (ks.foldl keyStep initState).order_size| ≤ 1 := by
  obtain ⟨h1, h2, h3, h4⟩ := stInv_fold ks initState stInv_init
  refine ⟨⟨h1, h2, h3, h4⟩, ?_, ?_, ?_, ?_⟩ <;>
    simp only [keyStep, clamp] <;> rw [abs_le] <;> split_ifs <;>
    constructor <;> omega

/-! ## C3 / C6: bin building -/

lemma getD_replicate_zero (n p : ℕ) : (List.replicate n (0 : ℤ)).getD p 0 = 0 := by
  unfold List.getD
  rw [List.get?_eq_getElem?, List.getElem?_replicate]
  split <;> rfl

lemma getD_set_ite (l : List ℤ) (i : ℕ) (x : ℤ) (j : ℕ) :
    (l.set i x).getD j 0 = if i = j ∧ i < l.length then x else l.getD j 0 := by
  by_cases hlen : i < l.length
  · by_cases hij : i = j
    · subst hij
      simp [List.getD, List.getElem?_set, hlen]
    · simp [List.getD, List.getElem?_set, hij]
  · rw [List.set_eq_of_length_le (by omega)]
    have h : ¬ (i = j ∧ i < l.length) := by tauto
    simp [h]

lemma binStepYes_length (b : List ℤ) (pq : ℤ × ℤ) :
    (binStepYes b pq).length = b.length := by
  unfold binStepYes
  split_ifs <;> simp

lemma binStepNo_length (b : List ℤ) (pq : ℤ × ℤ) :
    (binStepNo b pq).length = b.length := by
  unfold binStepNo
  split_ifs <;> simp

lemma foldl_binStepYes_getD (l : List (ℤ × ℤ)) :
    ∀ init : List ℤ, init.length = 101 → ∀ p : ℕ, p ≤ 100 →
      (l.foldl binStepYes init).getD p 0 =
        init.getD p 0 + ((l.filter (fun pq => pq.1 = (p : ℤ))).map Prod.snd).sum := by
  induction l with
  | nil => intro init _ p _; simp
  | cons pq l ih =>
    intro init hlen p hp
    rw [List.foldl_cons,
      ih (binStepYes init pq) (by rw [binStepYes_length]; exact hlen) p hp]
    by_cases hr : 0 ≤ pq.1 ∧ pq.1 ≤ 100
    · rw [show binStepYes init pq =
          init.set pq.1.toNat (init.getD pq.1.toNat 0 + pq.2) from by
        simp [binStepYes, hr]]
      rw [getD_set_ite]
      by_cases heq : pq.1 = (p : ℤ)
      · rw [if_pos ⟨by omega, by omega⟩, show pq.1.toNat = p from by omega]
        rw [show (pq :: l).filter (fun x => x.1 = (p : ℤ)) =
            pq :: l.filter (fun x => x.1 = (p : ℤ)) from by
          simp [List.filter_cons, heq]]
        rw [List.map_cons, List.sum_cons]
        ring
      · rw [if_neg (by intro hk; exact heq (by omega))]
        rw [show (pq :: l).filter (fun x => x.1 = (p : ℤ)) =
            l.filter (fun x => x.1 = (p : ℤ)) from by
          simp [List.filter_cons, heq]]
    · rw [show binStepYes init pq = init from by simp [binStepYes, hr]]
      have heq : ¬ pq.1 = (p : ℤ) := by omega
      rw [show (pq :: l).filter (fun x => x.1 = (p : ℤ)) =
          l.filter (fun x => x.1 = (p : ℤ)) from by
        simp [List.filter_cons, heq]]

lemma foldl_binStepNo_getD (l : List (ℤ × ℤ)) :
    ∀ init : List ℤ, init.length = 101 → ∀ p : ℕ, p ≤ 100 →
      (l.foldl binStepNo init).getD p 0 =
        init.getD p 0 +
          ((l.filter (fun pq => pq.1 = 100 - (p : ℤ))).map Prod.snd).sum := by
  induction l with
  | nil => intro init _ p _; simp
  | cons pq l ih =>
    intro init hlen p hp
    rw [List.foldl_cons,
      ih (binStepNo init pq) (by rw [binStepNo_length]; exact hlen) p hp]
    by_cases hr : 0 ≤ pq.1 ∧ pq.1 ≤ 100
    · rw [show binStepNo init pq =
          init.set (100 - pq.1).toNat
            (init.getD (100 - pq.1).toNat 0 + pq.2) from by
        simp [binStepNo, hr]]
      rw [getD_set_ite]
      by_cases heq : pq.1 = 100 - (p : ℤ)
      · rw [if_pos ⟨by omega, by omega⟩, show (100 - pq.1).toNat = p from by omega]
        rw [show (pq :: l).filter (fun x => x.1 = 100 - (p : ℤ)) =
            pq :: l.filter (fun x => x.1 = 100 - (p : ℤ)) from by
          simp [List.filter_cons, heq]]
        rw [List.map_cons, List.sum_cons]
        ring
      · rw [if_neg (by intro hk; exact heq (by omega))]
        rw [show (pq :: l).filter (fun x => x.1 = 100 - (p : ℤ)) =
            l.filter (fun x => x.1 = 100 - (p : ℤ)) from by
          simp [List.filter_cons, heq]]
    · rw [show binStepNo init pq = init from by simp [binStepNo, hr]]
      have heq : ¬ pq.1 = 100 - (p : ℤ) := by omega
      rw [show (pq :: l).filter (fun x => x.1 = 100 - (p : ℤ)) =
          l.filter (fun x => x.1 = 100 - (p : ℤ)) from by
        simp [List.filter_cons, heq]]

lemma foldl_binStepYes_length (l : List (ℤ × ℤ)) :
    ∀ b : List ℤ, (l.foldl binStepYes b).length = b.length := by
  induction l with
  | nil => intro b; rfl
  | cons pq l ih => intro b; rw [List.foldl_cons, ih, binStepYes_length]

lemma foldl_binStepNo_length (l : List (ℤ × ℤ)) :
    ∀ b : List ℤ, (l.foldl binStepNo b).length = b.length := by
  induction l with
  | nil => intro b; rfl
  | cons pq l ih => intro b; rw [List.foldl_cons, ih, binStepNo_length]

lemma buildBins_length (yes no : List (ℤ × ℤ)) :
    (buildBins yes no).1.length = 101 ∧ (buildBins yes no).2.length = 101 := by
  unfold buildBins
  refine ⟨?_, ?_⟩
  · rw [foldl_binStepYes_length]
    simp
  · rw [foldl_binStepNo_length]
    simp

/-- C3: for every input list of pairs, each YES bin `p ∈ [0,100]` holds the
sum of the quantities of exactly the YES pairs priced `p`, and each mapped
NO bin `p` holds the sum of the quantities of exactly the NO pairs priced
`100 - p`; a pair with price outside [0,100] changes no bin at all, and the
empty input yields all-zero bins. -/
theorem C3_buildBins_characterization (yes no : List (ℤ × ℤ)) (p : ℕ)
    (hp : p ≤ 100) :
    (buildBins yes no).1.getD p 0 =
      ((yes.filter (fun pq => pq.1 = (p : ℤ))).map Prod.snd).sum ∧
    (buildBins yes no).2.getD p 0 =
      ((no.filter (fun pq => pq.1 = 100 - (p : ℤ))).map Prod.snd).sum ∧
    (∀ pq : ℤ × ℤ, pq.1 < 0 ∨ 100 < pq.1 →
      buildBins (pq :: yes) (pq :: no) = buildBins yes no) ∧
    (buildBins [] []).1.getD p 0 = 0 ∧ (buildBins [] []).2.getD p 0 = 0 := by
  refine ⟨?_, ?_, ?_, ?_, ?_⟩
  · rw [show (buildBins yes no).1 = yes.foldl binStepYes (List.replicate 101 0)
      from rfl]
    rw [foldl_binStepYes_getD yes (List.replicate 101 0) (by simp) p hp,
      getD_replicate_zero, zero_add]
  · rw [show (buildBins yes no).2 = no.foldl binStepNo (List.replicate 101 0)
      from rfl]
    rw [foldl_binStepNo_getD no (List.replicate 101 0) (by simp) p hp,
      getD_replicate_zero, zero_add]
  · intro pq hpq
    have h' : ¬ (0 ≤ pq.1 ∧ pq.1 ≤ 100) := by omega
    simp [buildBins, binStepYes, binStepNo, h']
  · exact getD_replicate_zero 101 p
  · exact getD_replicate_zero 101 p

/-- Witness for C3 on pairs `yes = [(50, 3)]`, `no = [(30, 5)]` at `p = 50`
(YES) and `p = 70` (the NO pair's mapped index is `100 - 30 = 70`). -/
theorem C3_buildBins_witness :
    (50 ≤ 100) ∧
    ((buildBins [((50 : ℤ), (3 : ℤ))] [((30 : ℤ), (5 : ℤ))]).1.getD 50 0 =
      ((([((50 : ℤ), (3 : ℤ))]).filter
        (fun pq => pq.1 = ((50 : ℕ) : ℤ))).map Prod.snd).sum ∧
     (buildBins [((50 : ℤ), (3 : ℤ))] [((30 : ℤ), (5 : ℤ))]).2.getD 50 0 =
      ((([((30 : ℤ), (5 : ℤ))]).filter
        (fun pq => pq.1 = 100 - ((50 : ℕ) : ℤ))).map Prod.snd).sum ∧
     (∀ pq : ℤ × ℤ, pq.1 < 0 ∨ 100 < pq.1 →
       buildBins (pq :: [((50 : ℤ), (3 : ℤ))]) (pq :: [((30 : ℤ), (5 : ℤ))]) =
         buildBins [((50 : ℤ), (3 : ℤ))] [((30 : ℤ), (5 : ℤ))]) ∧
     (buildBins [] []).1.getD 50 0 = 0 ∧ (buildBins [] []).2.getD 50 0 = 0) :=
  ⟨by decide,
    C3_buildBins_characterization [((50 : ℤ), (3 : ℤ))] [((30 : ℤ), (5 : ℤ))]
      50 (by decide)⟩

/-- The single YES pair `(50, -5)` whose quantity is negative. -/
def negPair : List (ℤ × ℤ) := [(50, -5)]

/-- C6 counterexample: a negative input quantity makes a bin entry negative —
`buildBins [(50, -5)] []` puts `-5` in YES bin 50. -/
theorem C6_counterexample :
    (buildBins negPair []).1.getD 50 0 = -5 ∧
    ¬ (0 ≤ (buildBins negPair []).1.getD 50 0) := by
  decide

/-- C6 amended: when every input quantity is non-negative, every entry of
both bin arrays produced by `buildBins` is non-negative (and both arrays
have 101 entries); for inputs with negative quantities bins can go negative,
as the counterexample shows. -/
theorem C6_bins_nonneg_amended (yes no : List (ℤ × ℤ))
    (hy : ∀ pq ∈ yes, 0 ≤ pq.2) (hn : ∀ pq ∈ no, 0 ≤ pq.2) :
    (∀ p : ℕ, 0 ≤ (buildBins yes no).1.getD p 0) ∧
    (∀ p : ℕ, 0 ≤ (buildBins yes no).2.getD p 0) ∧
    (buildBins yes no).1.length = 101 ∧ (buildBins yes no).2.length = 101 := by
  obtain ⟨hl1, hl2⟩ := buildBins_length yes no
  refine ⟨?_, ?_, hl1, hl2⟩
  · intro p
    by_cases hp : p ≤ 100
    · rw [(C3_buildBins_characterization yes no p hp).1]
      apply List.sum_nonneg
      intro x hx
      simp only [List.mem_map, List.mem_filter] at hx
      obtain ⟨pq, ⟨hmem, _⟩, hsnd⟩ := hx
      exact hsnd ▸ hy pq hmem
    · rw [List.getD_eq_default _ _ (by omega)]
  · intro p
    by_cases hp : p ≤ 100
    · rw [(C3_buildBins_characterization yes no p hp).2.1]
      apply List.sum_nonneg
      intro x hx
      simp only [List.mem_map, List.mem_filter] at hx
      obtain ⟨pq, ⟨hmem, _⟩, hsnd⟩ := hx
      exact hsnd ▸ hn pq hmem
    · rw [List.getD_eq_default _ _ (by omega)]

/-- Witness for C6 (amended) on `yes = [(50, 3)]`, `no = [(30, 5)]`. -/
theorem C6_bins_nonneg_witness :
    (∀ pq ∈ ([((50 : ℤ), (3 : ℤ))] : List (ℤ × ℤ)), 0 ≤ pq.2) ∧
    (∀ pq ∈ ([((30 : ℤ), (5 : ℤ))] : List (ℤ × ℤ)), 0 ≤ pq.2) ∧
    ((∀ p : ℕ, 0 ≤ (buildBins [((50 : ℤ), (3 : ℤ))] [((30 : ℤ), (5 : ℤ))]).1.getD p 0) ∧
     (∀ p : ℕ, 0 ≤ (buildBins [((50 : ℤ), (3 : ℤ))] [((30 : ℤ), (5 : ℤ))]).2.getD p 0) ∧
     (buildBins [((50 : ℤ), (3 : ℤ))] [((30 : ℤ), (5 : ℤ))]).1.length = 101 ∧
     (buildBins [((50 : ℤ), (3 : ℤ))] [((30 : ℤ), (5 : ℤ))]).2.length = 101) :=
  ⟨by decide, by decide,
    C6_bins_nonneg_amended [((50 : ℤ), (3 : ℤ))] [((30 : ℤ), (5 : ℤ))]
      (by decide) (by decide)⟩

/-! ## C7: best bid / best ask -/

lemma bestFrom_eq_some_iff (bins : List ℤ) (n : ℕ) :
    ∀ p : ℕ, bestFrom bins n = some p ↔
      (p ≤ n ∧ 0 < bins.getD p 0 ∧
        ∀ k : ℕ, p < k → k ≤ n → bins.getD k 0 ≤ 0) := by
  induction n with
  | zero =>
    intro p
    simp only [bestFrom]
    split_ifs with h
    · constructor
      · intro hsome
        obtain rfl : p = 0 := by simpa using hsome.symm
        exact ⟨le_refl 0, h, fun k hk1 hk2 => by omega⟩
      · rintro ⟨hp, _, _⟩
        obtain rfl : p = 0 := by omega
        rfl
    · constructor
      · intro hsome
        cases hsome
      · rintro ⟨hp, hpos, _⟩
        obtain rfl : p = 0 := by omega
        exact absurd hpos h
  | succ n ih =>
    intro p
    simp only [bestFrom]
    split_ifs with h
    · constructor
      · intro hsome
        obtain rfl : p = n + 1 := by simpa using hsome.symm
        exact ⟨le_refl _, h, fun k hk1 hk2 => by omega⟩
      · rintro ⟨hp, hpos, hmax⟩
        obtain rfl : p = n + 1 := by
          by_contra hne
          have := hmax (n + 1) (by omega) (by omega)
          omega
        rfl
    · rw [ih p]
      constructor
      · rintro ⟨hp, hpos, hmax⟩
        refine ⟨by omega, hpos, fun k hk1 hk2 => ?_⟩
        rcases Nat.lt_or_ge k (n + 1) with hk | hk
        · exact hmax k hk1 (by omega)
        · obtain rfl : k = n + 1 := by omega
          omega
      · rintro ⟨hp, hpos, hmax⟩
        refine ⟨?_, hpos, fun k hk1 hk2 => hmax k hk1 (by omega)⟩
        by_contra hgt
        obtain rfl : p = n + 1 := by omega
        omega

lemma bestFrom_eq_none_iff (bins : List ℤ) (n : ℕ) :
    bestFrom bins n = none ↔ ∀ k : ℕ, k ≤ n → bins.getD k 0 ≤ 0 := by
  induction n with
  | zero =>
    simp only [bestFrom]
    split_ifs with h
    · constructor
      · intro hc
        cases hc
      · intro hall
        have := hall 0 (le_refl 0)
        omega
    · constructor
      · intro _ k hk
        obtain rfl : k = 0 := by omega
        omega
      · intro _
        rfl
  | succ n ih =>
    simp only [bestFrom]
    split_ifs with h
    · constructor
      · intro hc
        cases hc
      · intro hall
        have := hall (n + 1) (le_refl _)
        omega
    · rw [ih]
      constructor
      · intro hall k hk
        rcases Nat.lt_or_ge k (n + 1) with hk' | hk'
        · exact hall k (by omega)
        · obtain rfl : k = n + 1 := by omega
          omega
      · intro hall k hk
        exact hall k (by omega)

lemma find?_range'_some (f : ℕ → Bool) :
    ∀ n s m : ℕ, (List.range' s n).find? f = some m ↔
      (s ≤ m ∧ m < s + n ∧ f m = true ∧
        ∀ k : ℕ, s ≤ k → k < m → f k = false) := by
  intro n
  induction n with
  | zero =>
    intro s m
    simp only [List.range']
    constructor
    · intro hc
      cases hc
    · rintro ⟨h1, h2, _, _⟩
      omega
  | succ n ih =>
    intro s m
    rw [List.range'_succ]
    by_cases hf : f s
    · rw [List.find?_cons_of_pos _ hf]
      constructor
      · intro hsome
        obtain rfl : m = s := by simpa using hsome.symm
        exact ⟨le_refl _, by omega, hf, fun k hk1 hk2 => by omega⟩
      · rintro ⟨h1, h2, h3, h4⟩
        obtain rfl : m = s := by
          by_contra hne
          have := h4 s (le_refl _) (by omega)
          rw [hf] at this
          cases this
        rfl
    · rw [List.find?_cons_of_neg _ (by simpa using hf), ih (s + 1) m]
      constructor
      · rintro ⟨h1, h2, h3, h4⟩
        refine ⟨by omega, by omega, h3, fun k hk1 hk2 => ?_⟩
        rcases Nat.eq_or_lt_of_le hk1 with rfl | hk
        · exact Bool.not_eq_true _ ▸ (by simpa using hf)
        · exact h4 k (by omega) hk2
      · rintro ⟨h1, h2, h3, h4⟩
        refine ⟨?_, by omega, h3, fun k hk1 hk2 => h4 k (by omega) hk2⟩
        rcases Nat.eq_or_lt_of_le h1 with rfl | hk
        · exact absurd h3 hf
        · omega

lemma find?_range'_none (f : ℕ → Bool) :
    ∀ n s : ℕ, (List.range' s n).find? f = none ↔
      ∀ k : ℕ, s ≤ k → k < s + n → f k = false := by
  intro n
  induction n with
  | zero =>
    intro s
    simp only [List.range']
    constructor
    · intro _ k hk1 hk2
      omega
    · intro _
      rfl
  | succ n ih =>
    intro s
    rw [List.range'_succ]
    by_cases hf : f s
    · rw [List.find?_cons_of_pos _ hf]
      constructor
      · intro hc
        cases hc
      · intro hall
        have := hall s (le_refl _) (by omega)
        rw [hf] at this
        cases this
    · rw [List.find?_cons_of_neg _ (by simpa using hf), ih (s + 1)]
      constructor
      · intro hall k hk1 hk2
        rcases Nat.eq_or_lt_of_le hk1 with rfl | hk
        · simpa using hf
        · exact hall k (by omega) (by omega)
      · intro hall k hk1 hk2
        exact hall k (by omega) (by omega)

lemma bya_of_eq_some_iff (no : List ℤ) (m : ℕ) :
    bya_of no = some m ↔
      (m ≤ 100 ∧ 0 < no.getD m 0 ∧ ∀ k : ℕ, k < m → no.getD k 0 ≤ 0) := by
  unfold bya_of best_no_bid
  rw [List.range_eq_range']
  rcases hfind : (List.range' 0 101).find? (fun j => decide (0 < no.getD j 0))
    with _ | j
  · rw [find?_range'_none] at hfind
    simp only [Option.map_none']
    constructor
    · intro hc
      cases hc
    · rintro ⟨h1, h2, _⟩
      have := hfind m (by omega) (by omega)
      rw [decide_eq_false_iff_not] at this
      omega
  · rw [find?_range'_some] at hfind
    obtain ⟨h0, h101, hpos, hmin⟩ := hfind
    rw [decide_eq_true_eq] at hpos
    simp only [Option.map_some']
    have hmm : 100 - (100 - j) = j := by omega
    rw [hmm]
    constructor
    · intro hsome
      obtain rfl : m = j := by simpa using hsome.symm
      refine ⟨by omega, hpos, fun k hk => ?_⟩
      have := hmin k (by omega) hk
      rw [decide_eq_false_iff_not] at this
      omega
    · rintro ⟨hm1, hm2, hm3⟩
      have hjm : j = m := by
        rcases Nat.lt_trichotomy j m with h | h | h
        · have := hm3 j h
          omega
        · exact h
        · have := hmin m (by omega) h
          rw [decide_eq_false_iff_not] at this
          omega
      rw [hjm]

lemma bya_of_eq_none_iff (no : List ℤ) :
    bya_of no = none ↔ ∀ m : ℕ, m ≤ 100 → no.getD m 0 ≤ 0 := by
  unfold bya_of best_no_bid
  rw [List.range_eq_range']
  rcases hfind : (List.range' 0 101).find? (fun j => decide (0 < no.getD j 0))
    with _ | j
  · rw [find?_range'_none] at hfind
    simp only [Option.map_none']
    constructor
    · intro _ m hm
      have := hfind m (by omega) (by omega)
      rw [decide_eq_false_iff_not] at this
      omega
    · intro _
      trivial
  · rw [find?_range'_some] at hfind
    obtain ⟨_, h101, hpos, _⟩ := hfind
    rw [decide_eq_true_eq] at hpos
    simp only [Option.map_some']
    constructor
    · intro hc
      cases hc
    · intro hall
      have := hall j (by omega)
      omega

/-- C7: `best_yes_bid` is `some p` exactly when `p` is the highest price in
[0,100] with a positive YES bin (and `none` exactly when all YES bins up to
100 are non-positive), and the displayed ask `bya` is `some m` exactly when
`m` is the lowest mapped index in [0,100] with a positive NO bin (and `none`
exactly when all mapped NO bins are non-positive) — both on the YES axis. -/
theorem C7_best_prices (yes no : List ℤ) :
    (∀ p : ℕ, best_yes_bid yes = some p ↔
      (p ≤ 100 ∧ 0 < yes.getD p 0 ∧
        ∀ k : ℕ, p < k → k ≤ 100 → yes.getD k 0 ≤ 0)) ∧
    (best_yes_bid yes = none ↔ ∀ p : ℕ, p ≤ 100 → yes.getD p 0 ≤ 0) ∧
    (∀ m : ℕ, bya_of no = some m ↔
      (m ≤ 100 ∧ 0 < no.getD m 0 ∧ ∀ k : ℕ, k < m → no.getD k 0 ≤ 0)) ∧
    (bya_of no = none ↔ ∀ m : ℕ, m ≤ 100 → no.getD m 0 ≤ 0) :=
  ⟨fun p => bestFrom_eq_some_iff yes 100 p,
   bestFrom_eq_none_iff yes 100,
   fun m => bya_of_eq_some_iff no m,
   bya_of_eq_none_iff no⟩

/-- Witness for C7: on bins with YES qty 10 at price 50 and NO qty 7 at
mapped index 40, the displayed bid is 50 and the displayed ask is 40, and
the characterization transfers. -/
theorem C7_best_prices_witness :
    (50 ≤ 100 ∧ 0 < ((List.replicate 101 (0 : ℤ)).set 50 10).getD 50 0 ∧
      ∀ k : ℕ, 50 < k → k ≤ 100 →
        ((List.replicate 101 (0 : ℤ)).set 50 10).getD k 0 ≤ 0) ∧
    (40 ≤ 100 ∧ 0 < ((List.replicate 101 (0 : ℤ)).set 40 7).getD 40 0 ∧
      ∀ k : ℕ, k < 40 → ((List.replicate 101 (0 : ℤ)).set 40 7).getD k 0 ≤ 0) :=
  ⟨((C7_best_prices ((List.replicate 101 (0 : ℤ)).set 50 10)
      ((List.replicate 101 (0 : ℤ)).set 40 7)).1 50).mp (by decide),
   ((C7_best_prices ((List.replicate 101 (0 : ℤ)).set 50 10)
      ((List.replicate 101 (0 : ℤ)).set 40 7)).2.2.1 40).mp (by decide)⟩

/-! ## C8: the order log -/

lemma take_append_take (n : ℕ) (A B : List String) :
    (A ++ B.take n).take n = (A ++ B).take n := by
  rw [List.take_append_eq_append_take, List.take_append_eq_append_take]
  congr 1
  rw [List.take_take]
  congr 1
  omega

lemma placed_foldl (ks : List Key) :
    ∀ s : TUIState, s.placed.length ≤ 50 →
      (ks.foldl keyStep s).placed = (specLog s ks ++ s.placed).take 50 := by
  induction ks with
  | nil =>
    intro s h
    rw [List.foldl_nil, show specLog s [] = [] from rfl, List.nil_append,
      List.take_of_length_le h]
  | cons k ks ih =>
    intro s h
    rw [List.foldl_cons]
    cases k with
    | confirm ts =>
      rw [ih (keyStep s (Key.confirm ts)) (by
        show ((renderEntry ts s.side s.order_size s.cursor_price ::
          s.placed).take 50).length ≤ 50
        rw [List.length_take]
        omega)]
      show (specLog (keyStep s (Key.confirm ts)) ks ++
          (renderEntry ts s.side s.order_size s.cursor_price ::
            s.placed).take 50).take 50 =
        ((specLog (keyStep s (Key.confirm ts)) ks ++
          [renderEntry ts s.side s.order_size s.cursor_price]) ++
          s.placed).take 50
      rw [take_append_take, List.append_assoc, List.singleton_append]
    | left => exact ih _ h
    | right => exact ih _ h
    | up => exact ih _ h
    | down => exact ih _ h
    | toggle_scale => exact ih _ h
    | toggle_side => exact ih _ h
    | other => exact ih _ h

lemma specLog_length (ks : List Key) :
    ∀ s : TUIState, (specLog s ks).length = countConfirms ks := by
  induction ks with
  | nil => intro s; rfl
  | cons k ks ih =>
    intro s
    cases k with
    | confirm ts =>
      show (specLog (keyStep s (Key.confirm ts)) ks ++
        [renderEntry ts s.side s.order_size s.cursor_price]).length =
        countConfirms ks + 1
      rw [List.length_append, ih]
      rfl
    | left => exact ih _
    | right => exact ih _
    | up => exact ih _
    | down => exact ih _
    | toggle_scale => exact ih _
    | toggle_side => exact ih _
    | other => exact ih _

/-- C8: starting from the empty log, after any key sequence with `N` confirm
events the order log equals the first 50 entries of the reference log
`specLog` — which holds, newest first, one entry per confirm event rendered
from the side, order size and cursor price that held at that event — and so
has exactly `min(N, 50)` entries. -/
theorem C8_order_log (ks : List Key) :
    (ks.foldl keyStep initState).placed = (specLog initState ks).take 50 ∧
    ((ks.foldl keyStep initState).placed).length =
      min (countConfirms ks) 50 := by
  have h := placed_foldl ks initState (by
    rw [show initState.placed = [] from rfl]
    simp)
  rw [show initState.placed = [] from rfl, List.append_nil] at h
  refine ⟨h, ?_⟩
  rw [h, List.length_take, specLog_length, min_comm]

/-! ## C5: fetch failure and recovery -/

/-- The empty exception message: `str(e)` of a bare `asyncio.TimeoutError`
(the exception a timed-out fetch raises) is the empty string. -/
def emptyMsg : String := ""

/-- C5 counterexample: a failed fetch sets `lastError`, but only to `str(e)`,
which for a timeout is the empty string — not a non-empty string as claimed. -/
theorem C5_counterexample :
    (applyFetch ⟨List.replicate 101 0, List.replicate 101 0, none⟩
      (FetchOutcome.fail emptyMsg)).err = some emptyMsg ∧
    emptyMsg.length = 0 :=
  ⟨rfl, rfl⟩

/-- C5 amended: a failed fetch leaves both bin lists exactly as they were and
sets `lastError` to the exception's message string (which may be empty, as a
timeout's is); the next successful fetch replaces both bin lists and resets
`lastError` to `None`. -/
theorem C5_fetch_failure_amended (s : FetchState) (msg : String)
    (y n : List ℤ) :
    (applyFetch s (FetchOutcome.fail msg)).yes_bins = s.yes_bins ∧
    (applyFetch s (FetchOutcome.fail msg)).no_bins = s.no_bins ∧
    (applyFetch s (FetchOutcome.fail msg)).err = some msg ∧
    applyFetch (applyFetch s (FetchOutcome.fail msg)) (FetchOutcome.ok y n) =
      ⟨y, n, none⟩ :=
  ⟨rfl, rfl, rfl, rfl⟩

end OrderbookTui
